import Mathlib

/-!
# goproxy `cache` package: a shallow embedding

The development covers `cache/cache.go` (`HttpCache`, `NewCacheResp`,
`HttpCache.Verify`, `getAge`) and `cache/cachePool.go` (`MD5Uri`,
`ConnCachePool.Get`, `ConnCachePool.get`).

Conventions.

* A Go `string` / `[]byte` is a list of bytes, `GoString = List (Fin 256)`.
* `int64` values are integers kept in range by `wrapInt64` after every
  arithmetic step that can overflow.
* `time.Time` is the number of nanoseconds since the Unix epoch and
  `time.Duration` is an `int64` number of nanoseconds.
* What the package obtains from outside (wall clock, configuration, the time
  layout parser of the standard library, the HTTP transport, the redis
  connection, the JSON decoder) is passed in explicitly.
-/

namespace Cache

/-! ## Strings and machine integers -/

/-- One byte. -/
abbrev Byte := Fin 256

/-- A Go string: an immutable sequence of bytes. -/
abbrev GoString := List Byte

/-- Bytes of an ASCII literal. -/
def ascii (s : String) : GoString := s.toList.map (fun c => Fin.ofNat c.toNat)

/-- Two's complement reduction of an integer to the `int64` range. -/
def wrapInt64 (x : Int) : Int :=
  (x + 9223372036854775808) % 18446744073709551616 - 9223372036854775808

/-- Does `s` begin with `p`? -/
def startsWith : GoString → GoString → Bool
  | _, [] => true
  | [], _ :: _ => false
  | c :: s, d :: p => c == d && startsWith s p

/-- Scan of `strings.Index`: `i` is the offset of `s` in the original string. -/
def indexFrom (substr : GoString) : GoString → Nat → Int
  | [], i => if startsWith [] substr then (i : Int) else -1
  | c :: s, i =>
    if startsWith (c :: s) substr then (i : Int) else indexFrom substr s (i + 1)

/-- Go `strings.Index(s, substr)`: offset of the first occurrence of `substr`
in `s`, or `-1` when there is none. -/
def Index (s substr : GoString) : Int := indexFrom substr s 0

/-! ## `crypto/md5` and `fmt.Sprintf("%x", ·)` -/

namespace MD5

/-- Reduction to a 32-bit word. -/
def w32 (x : Nat) : Nat := x % 4294967296

/-- Left rotation of a 32-bit word. -/
def rotl (x s : Nat) : Nat := w32 (x <<< s) ||| (x >>> (32 - s))

/-- Bitwise complement of a 32-bit word. -/
def not32 (x : Nat) : Nat := x ^^^ 4294967295

/-- The sine table of RFC 1321. -/
def K : List Nat :=
  [0xd76aa478, 0xe8c7b756, 0x242070db, 0xc1bdceee,
   0xf57c0faf, 0x4787c62a, 0xa8304613, 0xfd469501,
   0x698098d8, 0x8b44f7af, 0xffff5bb1, 0x895cd7be,
   0x6b901122, 0xfd987193, 0xa679438e, 0x49b40821,
   0xf61e2562, 0xc040b340, 0x265e5a51, 0xe9b6c7aa,
   0xd62f105d, 0x02441453, 0xd8a1e681, 0xe7d3fbc8,
   0x21e1cde6, 0xc33707d6, 0xf4d50d87, 0x455a14ed,
   0xa9e3e905, 0xfcefa3f8, 0x676f02d9, 0x8d2a4c8a,
   0xfffa3942, 0x8771f681, 0x6d9d6122, 0xfde5380c,
   0xa4beea44, 0x4bdecfa9, 0xf6bb4b60, 0xbebfbc70,
   0x289b7ec6, 0xeaa127fa, 0xd4ef3085, 0x04881d05,
   0xd9d4d039, 0xe6db99e5, 0x1fa27cf8, 0xc4ac5665,
   0xf4292244, 0x432aff97, 0xab9423a7, 0xfc93a039,
   0x655b59c3, 0x8f0ccc92, 0xffeff47d, 0x85845dd1,
   0x6fa87e4f, 0xfe2ce6e0, 0xa3014314, 0x4e0811a1,
   0xf7537e82, 0xbd3af235, 0x2ad7d2bb, 0xeb86d391]

/-- Per-round rotation amounts. -/
def S : List Nat :=
  [7, 12, 17, 22, 7, 12, 17, 22, 7, 12, 17, 22, 7, 12, 17, 22,
   5, 9, 14, 20, 5, 9, 14, 20, 5, 9, 14, 20, 5, 9, 14, 20,
   4, 11, 16, 23, 4, 11, 16, 23, 4, 11, 16, 23, 4, 11, 16, 23,
   6, 10, 15, 21, 6, 10, 15, 21, 6, 10, 15, 21, 6, 10, 15, 21]

/-- The four chaining words. -/
structure State where
  a : Nat
  b : Nat
  c : Nat
  d : Nat
deriving DecidableEq

/-- Initial chaining value. -/
def init : State := ⟨0x67452301, 0xefcdab89, 0x98badcfe, 0x10325476⟩

/-- Little-endian 32-bit word starting at byte `4 * g` of a block. -/
def wordAt (block : List Nat) (g : Nat) : Nat :=
  block.getD (4 * g) 0 + 256 * block.getD (4 * g + 1) 0
    + 65536 * block.getD (4 * g + 2) 0 + 16777216 * block.getD (4 * g + 3) 0

/-- One of the 64 steps of the compression function. -/
def step (block : List Nat) (st : State) (i : Nat) : State :=
  let f :=
    if i < 16 then (st.b &&& st.c) ||| (not32 st.b &&& st.d)
    else if i < 32 then (st.d &&& st.b) ||| (not32 st.d &&& st.c)
    else if i < 48 then st.b ^^^ st.c ^^^ st.d
    else st.c ^^^ (st.b ||| not32 st.d)
  let g :=
    if i < 16 then i
    else if i < 32 then (5 * i + 1) % 16
    else if i < 48 then (3 * i + 5) % 16
    else (7 * i) % 16
  let t := w32 (f + st.a + K.getD i 0 + wordAt block g)
  ⟨st.d, w32 (st.b + rotl t (S.getD i 0)), st.b, st.c⟩

/-- Compression of one 64-byte block into the chaining value. -/
def compress (st : State) (block : List Nat) : State :=
  let r := (List.range 64).foldl (step block) st
  ⟨w32 (st.a + r.a), w32 (st.b + r.b), w32 (st.c + r.c), w32 (st.d + r.d)⟩

/-- Little-endian bytes of a 64-bit length. -/
def le64 (n : Nat) : List Nat :=
  (List.range 8).map (fun k => n / 256 ^ k % 256)

/-- Message padding: `0x80`, zeros up to 56 mod 64, then the bit length. -/
def pad (msg : List Nat) : List Nat :=
  msg ++ [128] ++ List.replicate ((119 - msg.length % 64) % 64) 0
    ++ le64 (8 * msg.length % 18446744073709551616)

/-- Absorb `n` consecutive 64-byte blocks. -/
def absorb : Nat → State → List Nat → State
  | 0, st, _ => st
  | n + 1, st, data => absorb n (compress st (data.take 64)) (data.drop 64)

/-- Little-endian bytes of a 32-bit word. -/
def le32 (w : Nat) : List Byte :=
  [Fin.ofNat w, Fin.ofNat (w / 256), Fin.ofNat (w / 65536), Fin.ofNat (w / 16777216)]

/-- Go `md5.Sum(data)`: the 16-byte digest. -/
def Sum (data : GoString) : List Byte :=
  let padded := pad (data.map Fin.val)
  let st := absorb (padded.length / 64) init padded
  le32 st.a ++ le32 st.b ++ le32 st.c ++ le32 st.d

end MD5

/-- Digit alphabet of the `%x` verb. -/
def ldigits : GoString := ascii "0123456789abcdef"

/-- Two lowercase hexadecimal digits of one byte, high nibble first. -/
def hexByte (b : Byte) : GoString :=
  [ldigits.getD (b.val / 16) 0, ldigits.getD (b.val % 16) 0]

/-- Go `fmt.Sprintf("%x", bs)` on a byte array. -/
def sprintfHex (bs : List Byte) : GoString := bs.flatMap hexByte

/-- MD5Uri calculates the md5 of the given string. -/
def MD5Uri (uri : GoString) : GoString := sprintfHex (MD5.Sum uri)

/-! ## `time` -/

/-- Go `time.Time`: nanoseconds since the Unix epoch. -/
abbrev Time := Int

/-- Go `time.Duration`: an `int64` count of nanoseconds. -/
abbrev Duration := Int

/-- Go `time.Second`. -/
def Second : Duration := 1000000000

/-- The zero `time.Time`, January 1 of year 1, 00:00:00 UTC. -/
def zeroTime : Time := -62135596800000000000

/-- Go `t.Add(d)`. -/
def timeAdd (t : Time) (d : Duration) : Time := t + d

/-- Go `t.After(u)`: is `t` strictly later than `u`? -/
def timeAfter (t u : Time) : Bool := decide (u < t)

/-- Go `time.Duration(n) * time.Second` on an `int64` `n`. -/
def secondsToDuration (n : Int) : Duration := wrapInt64 (n * Second)

/-- Layout `http.TimeFormat`. -/
def TimeFormat : GoString := ascii "Mon, 02 Jan 2006 15:04:05 GMT"

/-- Layout `time.RFC1123`. -/
def RFC1123 : GoString := ascii "Mon, 02 Jan 2006 15:04:05 MST"

/-! ## `fasthttp` response headers -/

/-- The part of `fasthttp.ResponseHeader` the package reads: the status code
and the header lines in order, names as fasthttp stores them (normalised
when the response was parsed: `Etag`, `Cache-Control`, ...). -/
structure ResponseHeader where
  statusCode : Int
  h : List (GoString × GoString)
deriving DecidableEq

/-- A freshly allocated header, `new(fasthttp.ResponseHeader)`. -/
def ResponseHeader.empty : ResponseHeader := ⟨0, []⟩

/-- Entry of fasthttp `toUpperTable`: an ASCII lowercase letter becomes
uppercase, any other byte stays. -/
def toUpper (c : Byte) : Byte :=
  if 97 ≤ c.val ∧ c.val ≤ 122 then Fin.ofNat (c.val - 32) else c

/-- Entry of fasthttp `toLowerTable`: an ASCII uppercase letter becomes
lowercase, any other byte stays. -/
def toLower (c : Byte) : Byte :=
  if 65 ≤ c.val ∧ c.val ≤ 90 then Fin.ofNat (c.val + 32) else c

/-- The loop of fasthttp `normalizeHeaderKey` from index 1 on: the byte after
a `-` is uppercased and skipped, every other byte is lowercased. -/
def normalizeTail : GoString → GoString
  | [] => []
  | [c] => if c.val = 45 then [c] else [toLower c]
  | c :: d :: rest =>
    if c.val = 45 then c :: toUpper d :: normalizeTail rest
    else toLower c :: normalizeTail (d :: rest)

/-- The fasthttp `normalizeHeaderKey` (normalising enabled): `ETag` becomes
`Etag`, `cache-control` becomes `Cache-Control`. -/
def normalizeHeaderKey : GoString → GoString
  | [] => []
  | c :: rest => toUpper c :: normalizeTail rest

/-- Go `h.Peek(key)`: the key is normalised, then the value of the first line
with that name is returned, empty when there is none. -/
def ResponseHeader.Peek (hdr : ResponseHeader) (key : GoString) : GoString :=
  match hdr.h.find? (fun kv => kv.1 == normalizeHeaderKey key) with
  | some kv => kv.2
  | none => []

/-- The part of `fasthttp.Response` the package reads. -/
structure Response where
  Header : ResponseHeader
  body : GoString
deriving DecidableEq

/-- Modelled from the spec: `handlers.CopyHeaders(dst, src)` is not among the
sources; the header-copy collaborator "bulk-copies a header set" and
"preserves header names/values and ordering". -/
def CopyHeaders (dst src : ResponseHeader) : ResponseHeader :=
  { dst with h := src.h }

/-! ## `cache.go` -/

/-- HttpCache is the entity of http cache. `Header` is a pointer (`none` is
`nil`); `Body` stands for the writer bound to the response body. -/
structure HttpCache where
  Header : Option ResponseHeader
  Body : GoString
  StatusCode : Int
  URI : GoString
  LastModified : GoString
  ETag : GoString
  Mustverified : Bool
  Vlidity : Time
  maxAge : Int
deriving DecidableEq

/-- The value `new(HttpCache)` points to. -/
def HttpCache.zero : HttpCache :=
  { Header := none, Body := [], StatusCode := 0, URI := [], LastModified := [],
    ETag := [], Mustverified := false, Vlidity := zeroTime, maxAge := 0 }

/-- What `NewCacheResp` takes from its surroundings. -/
structure Env where
  /-- Result of `time.Now().UTC()`. -/
  now : Time
  /-- Result of `config.RuntimeViper.GetInt64("server.cache_timeout")`, an
  `int64`. -/
  cacheTimeout : Int
  /-- Go `time.Parse(layout, value)`; `none` is a non-nil error. -/
  timeParse : GoString → GoString → Option Time

/-- The digit loop of the closure in `getAge`, over `cacheControl[i:]`. -/
def getAge.loop : Int → GoString → Int
  | tmpAge, [] => tmpAge
  | tmpAge, c :: rest =>
    if 48 ≤ c.val ∧ c.val ≤ 57 then
      getAge.loop (wrapInt64 (tmpAge * 10 + (c.val : Int))) rest
    else tmpAge

/-- The closure `f` of `getAge`. -/
def getAge.f (cacheControl sage : GoString) : Int :=
  let idx := Index cacheControl sage
  if idx != -1 then
    getAge.loop 0 (cacheControl.drop (idx.toNat + sage.length + 1))
  else -1

/-- Function getAge: from Cache Control get cache's lifetime. -/
def getAge (cacheControl : GoString) : Int :=
  let sMaxage := getAge.f cacheControl (ascii "s-maxage")
  if sMaxage != -1 then sMaxage
  else getAge.f cacheControl (ascii "max-age")

/-- NewCacheResp creates a new HttpCache instance; `none` is `nil`. -/
def NewCacheResp (env : Env) (resp : Response) : Option HttpCache :=
  let c := HttpCache.zero
  let c := { c with Header := some (CopyHeaders ResponseHeader.empty resp.Header) }
  let c := { c with StatusCode := resp.Header.statusCode }
  let c := { c with Body := resp.body }
  match c.Header with
  | none => none
  | some hdr =>
    let c := { c with ETag := hdr.Peek (ascii "ETag") }
    let c := { c with LastModified := hdr.Peek (ascii "Last-Modified") }
    let cacheControl := hdr.Peek (ascii "Cache-Control")
    if Index cacheControl (ascii "no-cache") != -1 ||
        Index cacheControl (ascii "must-revalidate") != -1 ||
        Index cacheControl (ascii "proxy-revalidate") != -1 then
      none
    else
      let c := { c with Mustverified := true }
      let Expires := hdr.Peek (ascii "Expires")
      let afterExpires : Option HttpCache :=
        if Expires != [] then
          match env.timeParse TimeFormat Expires with
          | none => none
          | some t => some { c with Vlidity := t }
        else some c
      match afterExpires with
      | none => none
      | some c =>
        let maxAge := getAge cacheControl
        if maxAge != -1 then
          let date := hdr.Peek (ascii "Date")
          let parsed : Option Time :=
            if date == [] then some env.now else env.timeParse RFC1123 date
          match parsed with
          | none => none
          | some t =>
            some { c with Vlidity := timeAdd t (secondsToDuration maxAge), maxAge := maxAge }
        else
          let cacheTimeout := env.cacheTimeout
          let maxAge := cacheTimeout
          some { c with maxAge := cacheTimeout,
                        Vlidity := timeAdd env.now (secondsToDuration maxAge) }

/-- The part of `http.Request` that `Verify` fills in. -/
structure Request where
  method : GoString
  url : GoString
  header : List (GoString × GoString)
deriving DecidableEq

/-- Go `req.Header.Add(key, value)`. -/
def Request.addHeader (r : Request) (key value : GoString) : Request :=
  { r with header := r.header ++ [(key, value)] }

/-- Calls that leave the process, in the order they are made. -/
inductive Effect where
  | newRequest (method url : GoString)
  | roundTrip (req : Request)
deriving DecidableEq

/-- What `Verify` takes from its surroundings. -/
structure World where
  /-- Result of `time.Now().UTC()`. -/
  now : Time
  /-- Does `http.NewRequest("GET", url, nil)` accept the URL? -/
  urlOk : GoString → Bool
  /-- Go `Tr.RoundTrip(req)`: the status code of the answer, `none` on a
  transport error. -/
  roundTrip : Request → Option Int

/-- Go `http.StatusNotModified`. -/
def StatusNotModified : Int := 304

/-- Outcome of one call of `Verify`: the returned boolean and the outside
calls made before returning. -/
structure VerifyResult where
  answer : Bool
  trace : List Effect
deriving DecidableEq

/-- The request `Verify` prepares once `http.NewRequest` has succeeded: a
`GET` of the entry's URI carrying the stored validators that are non-empty. -/
def conditionalRequest (c : HttpCache) : Request :=
  let newReq : Request := ⟨ascii "GET", c.URI, []⟩
  let newReq :=
    if c.LastModified != [] then
      newReq.addHeader (ascii "If-Modified-Since") c.LastModified
    else newReq
  let newReq :=
    if c.ETag != [] then newReq.addHeader (ascii "If-None-Match") c.ETag
    else newReq
  newReq

/-- Verify verifies whether cache is out of date. -/
def Verify (w : World) (c : HttpCache) : VerifyResult :=
  if c.Mustverified == true && timeAfter c.Vlidity w.now then
    ⟨true, []⟩
  else
    let built := Effect.newRequest (ascii "GET") c.URI
    if !w.urlOk c.URI then
      ⟨false, [built]⟩
    else
      let newReq := conditionalRequest c
      match w.roundTrip newReq with
      | none => ⟨false, [built, Effect.roundTrip newReq]⟩
      | some status =>
        if status != StatusNotModified then
          ⟨false, [built, Effect.roundTrip newReq]⟩
        else
          ⟨false, [built, Effect.roundTrip newReq]⟩

/-! ## `cachePool.go` -/

/-- Result of `conn.Do("GET", key)` on a pooled connection. -/
inductive Reply where
  /-- A non-nil error (dial, authentication or command failure). -/
  | error
  /-- The nil reply: the key does not exist. -/
  | null
  /-- A bulk string. -/
  | bulk (b : GoString)
  /-- A reply of another type (integer, array, ...). -/
  | other
deriving DecidableEq

/-- Go `redis.Bytes(reply, err)`; `none` is a non-nil error. -/
def redisBytes : Reply → Option GoString
  | Reply.bulk b => some b
  | _ => none

/-- ConnCachePool cache-pool to cache http responses: the store reached
through the pool and the JSON decoder used on what it holds. Borrowing a
connection is taken to return: a failed `PING` in `TestOnBorrow` panics and
is outside this description. -/
structure ConnCachePool where
  /-- Reply of the store to `GET key`. -/
  doGet : GoString → Reply
  /-- Go `json.Unmarshal(b, &respCache)`: from the blob and the pointer held
  by `respCache` before the call to the pointer held after it and whether a
  non-nil error was returned. -/
  unmarshal : GoString → Option HttpCache → Option HttpCache × Bool

/-- The unexported `get`: fetch and decode the blob stored under a key. -/
def ConnCachePool.get (c : ConnCachePool) (md5Uri : GoString) : Option HttpCache :=
  match redisBytes (c.doGet md5Uri) with
  | none => none
  | some b =>
    if b.length == 0 then none
    else
      let respCache := some HttpCache.zero
      let respCache := (c.unmarshal b respCache).1
      respCache

/-- Get get the cache from cache-pool. -/
def ConnCachePool.Get (c : ConnCachePool) (uri : GoString) : Option HttpCache :=
  match c.get (MD5Uri uri) with
  | some respCache => some respCache
  | none => none

/-! ## Concrete inputs -/

/-- A date header value: the Unix epoch. -/
def epochDate : GoString := ascii "Thu, 01 Jan 1970 00:00:00 GMT"

/-- A date header value: one hour after the Unix epoch. -/
def hourDate : GoString := ascii "Thu, 01 Jan 1970 01:00:00 GMT"

/-- The answers of `time.Parse` on the two date values above, under either
layout used by the package; no other value is recognised. -/
def sampleParse (layout value : GoString) : Option Time :=
  if layout = TimeFormat ∨ layout = RFC1123 then
    if value = epochDate then some 0
    else if value = hourDate then some (3600 * Second)
    else none
  else none

/-- Surroundings: the clock reads 00:10:00 on 1 January 1970 and the
configured `server.cache_timeout` is 60 seconds. -/
def sampleEnv : Env :=
  { now := 600 * Second, cacheTimeout := 60, timeParse := sampleParse }

/-- A 200 response with the given header lines and an empty body. -/
def respWith (lines : List (String × String)) : Response :=
  ⟨⟨200, lines.map (fun kv => (ascii kv.1, ascii kv.2))⟩, []⟩

/-- The entry `NewCacheResp` builds from `resp` before any freshness field is
set. -/
def entryBase (resp : Response) : HttpCache :=
  { HttpCache.zero with
    Header := some (CopyHeaders ResponseHeader.empty resp.Header),
    StatusCode := resp.Header.statusCode,
    Body := resp.body,
    ETag := resp.Header.Peek (ascii "ETag"),
    LastModified := resp.Header.Peek (ascii "Last-Modified") }

/-- The value `cc` carries one of the directives that make `NewCacheResp`
give up: `no-cache`, `must-revalidate` or `proxy-revalidate` occurs in it. -/
def hasRevalidationDirective (cc : GoString) : Prop :=
  ∃ a d b, cc = a ++ d ++ b ∧
    (d = ascii "no-cache" ∨ d = ascii "must-revalidate" ∨ d = ascii "proxy-revalidate")

/-- The reference time of the freshness computation: the parsed `Date`
header when `getAge` found a directive and `Date` is non-empty, the current
time otherwise. -/
def referenceTime (env : Env) (resp : Response) : Option Time :=
  if getAge (resp.Header.Peek (ascii "Cache-Control")) ≠ -1 ∧
      resp.Header.Peek (ascii "Date") ≠ [] then
    env.timeParse RFC1123 (resp.Header.Peek (ascii "Date"))
  else some env.now

/-- The header lines of a response other than its `Expires` lines. -/
def otherLines (resp : Response) : List (GoString × GoString) :=
  resp.Header.h.filter (fun kv => kv.1 != ascii "Expires")

/-- Is the byte one of `0`..`9`, `a`..`f`? -/
def isLowerHex (c : Byte) : Bool :=
  (48 ≤ c.val && c.val ≤ 57) || (97 ≤ c.val && c.val ≤ 102)

/-- Numeric value of a lowercase hexadecimal digit. -/
def hexValue (c : Byte) : Nat := if c.val ≤ 57 then c.val - 48 else c.val - 87

/-- The byte values a string of hexadecimal digit pairs stands for. -/
def hexDecode : GoString → List Nat
  | hi :: lo :: rest => (16 * hexValue hi + hexValue lo) :: hexDecode rest
  | _ => []

/-- The URI used in the concrete inputs. -/
def sampleURI : GoString := ascii "http://example.com/a"

/-- Surroundings of `Verify`: the clock reads 00:10:00 on 1 January 1970,
the sample URI is accepted by `http.NewRequest`, and the origin answers
`304 Not Modified` to a request carrying `If-None-Match: abc` and `200` to
any other. -/
def sampleWorld : World :=
  { now := 600 * Second,
    urlOk := fun u => u == sampleURI,
    roundTrip := fun req =>
      if (ascii "If-None-Match", ascii "abc") ∈ req.header then some 304 else some 200 }

/-- A stored entry for the sample URI with validator `ETag: abc`. -/
def sampleEntry (mustverified : Bool) (vlidity : Time) : HttpCache :=
  { HttpCache.zero with
    StatusCode := 200, URI := sampleURI, ETag := ascii "abc",
    Mustverified := mustverified, Vlidity := vlidity }

/-- A pool whose store holds the blob `{` under the key of the sample URI and
nothing else. The blob is not valid JSON: on it `json.Unmarshal` reports a
syntax error and leaves its target as it was. -/
def corruptPool : ConnCachePool :=
  { doGet := fun key => if key = MD5Uri sampleURI then Reply.bulk (ascii "\x7b") else Reply.null,
    unmarshal := fun _ target => (target, true) }

/-- A response dated one hour after the epoch with `max-age=60` and the
given `Expires` value. -/
def datedResponse (expires : String) : Response :=
  respWith [("Cache-Control", "max-age=60"),
            ("Date", "Thu, 01 Jan 1970 01:00:00 GMT"),
            ("Expires", expires)]

/-- A response whose `max-age` value has eleven digits and that has no `Date`. -/
def longLivedResponse : Response :=
  respWith [("Cache-Control", "max-age=99999999999")]

/-- The number a string of decimal digits denotes. -/
def decimalValue (ds : GoString) : Int :=
  ds.foldl (fun acc c => acc * 10 + ((c.val : Int) - 48)) 0

/-- The numbers `r`, `10 r + 1`, `10 (10 r + 1) + 1`, ...; from `r = 0` the
`k`-th is the repunit `11...1` with `k` ones. -/
def repunitFrom (r : Int) : Nat → Int
  | 0 => r
  | k + 1 => repunitFrom (10 * r + 1) k

/-- The long-lived response with an `Expires` line added. -/
def longLivedExpiring : Response :=
  respWith [("Cache-Control", "max-age=99999999999"),
            ("Expires", "Thu, 01 Jan 1970 01:00:00 GMT")]

/-! ## `strings.Index` -/

theorem startsWith_append (p t : GoString) : startsWith (p ++ t) p = true := by
  induction p with
  | nil => cases t <;> rfl
  | cons d p ih => simp [startsWith, ih]

theorem indexFrom_ne_neg_one (sub a b : GoString) (i : Nat) :
    indexFrom sub (a ++ sub ++ b) i ≠ -1 := by
  induction a generalizing i with
  | nil =>
    have hs : startsWith (sub ++ b) sub = true := startsWith_append sub b
    cases hsb : sub ++ b with
    | nil =>
      rw [hsb] at hs
      simp only [List.nil_append, hsb, indexFrom, hs, if_true]
      omega
    | cons c s =>
      rw [hsb] at hs
      simp only [List.nil_append, hsb, indexFrom, hs, if_true]
      omega
  | cons x a ih =>
    simp only [List.cons_append, indexFrom]
    split
    · omega
    · exact ih (i + 1)

/-- A string in which `sub` occurs has an index for it. -/
theorem Index_ne_neg_one_of_occurs (s sub a b : GoString) (h : s = a ++ sub ++ b) :
    Index s sub ≠ -1 := by
  subst h
  exact indexFrom_ne_neg_one sub a b 0

/-! ## `getAge` -/

theorem getAge_f_absent (cc name : GoString) (h : Index cc name = -1) :
    getAge.f cc name = -1 := by
  simp [getAge.f, h]

theorem wrapInt64_of_fits (x : Int) (h1 : -9223372036854775808 ≤ x)
    (h2 : x ≤ 9223372036854775807) : wrapInt64 x = x := by
  unfold wrapInt64
  omega

theorem Index_of_starts (name t : GoString) : Index (name ++ t) name = 0 := by
  have hs : startsWith (name ++ t) name = true := startsWith_append name t
  unfold Index
  cases hnt : name ++ t with
  | nil =>
    rw [hnt] at hs
    simp [indexFrom, hs]
  | cons c r =>
    rw [hnt] at hs
    simp [indexFrom, hs]

theorem indexFrom_head_absent (h : Byte) (t s : GoString) (i : Nat)
    (hs : ∀ c ∈ s, c ≠ h) : indexFrom (h :: t) s i = -1 := by
  induction s generalizing i with
  | nil => simp [indexFrom, startsWith]
  | cons c r ih =>
    have hc : (c == h) = false := by
      simp only [beq_eq_false_iff_ne, ne_eq]
      exact hs c (List.mem_cons_self c r)
    have hr : ∀ d ∈ r, d ≠ h := fun d hd => hs d (List.mem_cons_of_mem c hd)
    simp only [indexFrom, startsWith, hc, Bool.false_and, Bool.false_eq_true, if_false]
    exact ih (i + 1) hr

theorem wrapInt64_step (a c : Int) :
    wrapInt64 (wrapInt64 a * 10 + c) = wrapInt64 (a * 10 + c) := by
  unfold wrapInt64
  omega

/-- On a run of digits the loop computes, up to `int64` wrap-around, the
base-10 number whose "digits" are the character codes. -/
theorem getAge_loop_digits (ds rest : GoString) (acc : Int)
    (hd : ∀ c ∈ ds, 48 ≤ c.val ∧ c.val ≤ 57)
    (hrest : ∀ c, rest.head? = some c → ¬ (48 ≤ c.val ∧ c.val ≤ 57)) :
    getAge.loop (wrapInt64 acc) (ds ++ rest)
      = wrapInt64 (ds.foldl (fun a c => a * 10 + (c.val : Int)) acc) := by
  induction ds generalizing acc with
  | nil =>
    cases rest with
    | nil => rfl
    | cons c t =>
      have hc := hrest c rfl
      simp only [List.nil_append, getAge.loop, hc, if_false, List.foldl_nil]
  | cons c ds ih =>
    have hc := hd c (List.mem_cons_self c ds)
    have hds : ∀ d ∈ ds, 48 ≤ d.val ∧ d.val ≤ 57 :=
      fun d hm => hd d (List.mem_cons_of_mem c hm)
    simp only [List.cons_append, getAge.loop, hc, and_self, if_true, List.foldl_cons]
    rw [wrapInt64_step]
    exact ih (acc * 10 + (c.val : Int)) hds

theorem codes_eq_value_plus (ds : GoString) (a r : Int) :
    ds.foldl (fun x c => x * 10 + (c.val : Int)) (a + 48 * r)
      = ds.foldl (fun x c => x * 10 + ((c.val : Int) - 48)) a
        + 48 * repunitFrom r ds.length := by
  induction ds generalizing a r with
  | nil => simp [repunitFrom]
  | cons c ds ih =>
    simp only [List.foldl_cons, List.length_cons, repunitFrom]
    have : (a + 48 * r) * 10 + (c.val : Int)
        = (a * 10 + ((c.val : Int) - 48)) + 48 * (10 * r + 1) := by ring
    rw [this]
    exact ih _ _

theorem repunitFrom_odd (k : Nat) (r : Int) (hr : r % 2 = 1) : repunitFrom r k % 2 = 1 := by
  induction k generalizing r with
  | zero => exact hr
  | succ k ih =>
    simp only [repunitFrom]
    exact ih _ (by omega)

theorem wrapInt64_add_odd_ne (v R : Int) (hR : R % 2 = 1) : wrapInt64 (v + 48 * R) ≠ v := by
  unfold wrapInt64
  omega

/-- The closure of `getAge` on a directive followed by one byte and a
non-empty run of decimal digits: what it returns is the denoted number plus
48 times a repunit, wrapped to `int64`, and never the denoted number. -/
theorem getAge_f_digits (name ds rest : GoString) (sep : Byte)
    (hne : ds ≠ [])
    (hd : ∀ c ∈ ds, 48 ≤ c.val ∧ c.val ≤ 57)
    (hrest : ∀ c, rest.head? = some c → ¬ (48 ≤ c.val ∧ c.val ≤ 57)) :
    getAge.f (name ++ sep :: (ds ++ rest)) name
      = wrapInt64 (decimalValue ds + 48 * repunitFrom 0 ds.length) ∧
    getAge.f (name ++ sep :: (ds ++ rest)) name ≠ decimalValue ds := by
  have hval : getAge.f (name ++ sep :: (ds ++ rest)) name
      = wrapInt64 (decimalValue ds + 48 * repunitFrom 0 ds.length) := by
    have hdrop : (name ++ sep :: (ds ++ rest)).drop (name.length + 1) = ds ++ rest := by
      have : name ++ sep :: (ds ++ rest) = (name ++ [sep]) ++ (ds ++ rest) := by simp
      rw [this]
      exact List.drop_left' (by simp)
    have h0 := getAge_loop_digits ds rest 0 hd hrest
    have hc := codes_eq_value_plus ds 0 0
    simp only [mul_zero, add_zero] at hc
    simp only [getAge.f, Index_of_starts, Int.toNat_zero, zero_add]
    rw [if_pos (by decide), hdrop]
    unfold decimalValue
    rw [← hc]
    exact h0
  refine ⟨hval, ?_⟩
  rw [hval]
  cases ds with
  | nil => exact absurd rfl hne
  | cons c t =>
    apply wrapInt64_add_odd_ne
    simp only [List.length_cons, repunitFrom]
    exact repunitFrom_odd _ _ (by decide)

/-- On `max-age=` followed by any non-empty string of decimal digits,
`getAge` never returns the number the digits denote. -/
theorem getAge_max_age_digits (ds : GoString) (hne : ds ≠ [])
    (hd : ∀ c ∈ ds, 48 ≤ c.val ∧ c.val ≤ 57) :
    getAge (ascii "max-age=" ++ ds)
      = wrapInt64 (decimalValue ds + 48 * repunitFrom 0 ds.length) ∧
    getAge (ascii "max-age=" ++ ds) ≠ decimalValue ds := by
  have hs : getAge.f (ascii "max-age=" ++ ds) (ascii "s-maxage") = -1 := by
    apply getAge_f_absent
    have h1 : ascii "s-maxage" = (115 : Byte) :: ascii "-maxage" := by decide
    rw [h1]
    apply indexFrom_head_absent
    intro c hc
    rw [List.mem_append] at hc
    rcases hc with hc | hc
    · revert c
      decide!
    · intro hcs
      have := hd c hc
      rw [hcs] at this
      exact absurd this (by decide)
  have hf := getAge_f_digits (ascii "max-age") ds [] (61 : Byte) hne hd (by simp)
  have hcc : ascii "max-age=" ++ ds = ascii "max-age" ++ (61 : Byte) :: (ds ++ []) := by
    rw [List.append_nil]
    rfl
  rw [← hcc] at hf
  unfold getAge
  simp only [hs, bne_self_eq_false, Bool.false_eq_true, if_false]
  exact hf

theorem Peek_normalises_key :
    normalizeHeaderKey (ascii "ETag") = ascii "Etag" ∧
    normalizeHeaderKey (ascii "Last-Modified") = ascii "Last-Modified" ∧
    normalizeHeaderKey (ascii "Cache-Control") = ascii "Cache-Control" ∧
    (NewCacheResp sampleEnv (respWith [("Etag", "abc")])).map (fun c => c.ETag)
      = some (ascii "abc") := by
  decide!

theorem Peek_CopyHeaders (dst src : ResponseHeader) (key : GoString) :
    (CopyHeaders dst src).Peek key = src.Peek key := rfl

/-- Branch structure of `NewCacheResp`, with the entry fields written out. -/
theorem NewCacheResp_eq (env : Env) (resp : Response) :
    NewCacheResp env resp =
      if Index (resp.Header.Peek (ascii "Cache-Control")) (ascii "no-cache") ≠ -1 ∨
          Index (resp.Header.Peek (ascii "Cache-Control")) (ascii "must-revalidate") ≠ -1 ∨
          Index (resp.Header.Peek (ascii "Cache-Control")) (ascii "proxy-revalidate") ≠ -1 then
        none
      else if resp.Header.Peek (ascii "Expires") ≠ [] ∧
          env.timeParse TimeFormat (resp.Header.Peek (ascii "Expires")) = none then
        none
      else if getAge (resp.Header.Peek (ascii "Cache-Control")) ≠ -1 then
        (if resp.Header.Peek (ascii "Date") = [] then some env.now
          else env.timeParse RFC1123 (resp.Header.Peek (ascii "Date"))).map
          (fun t => { entryBase resp with
            Mustverified := true,
            Vlidity := timeAdd t
              (secondsToDuration (getAge (resp.Header.Peek (ascii "Cache-Control")))),
            maxAge := getAge (resp.Header.Peek (ascii "Cache-Control")) })
      else
        some { entryBase resp with
          Mustverified := true,
          Vlidity := timeAdd env.now (secondsToDuration env.cacheTimeout),
          maxAge := env.cacheTimeout } := by
  simp only [NewCacheResp, Peek_CopyHeaders, entryBase]
  by_cases h1 : Index (resp.Header.Peek (ascii "Cache-Control")) (ascii "no-cache") ≠ -1 ∨
          Index (resp.Header.Peek (ascii "Cache-Control")) (ascii "must-revalidate") ≠ -1 ∨
          Index (resp.Header.Peek (ascii "Cache-Control")) (ascii "proxy-revalidate") ≠ -1
  · have : (Index (resp.Header.Peek (ascii "Cache-Control")) (ascii "no-cache") != -1 ||
        Index (resp.Header.Peek (ascii "Cache-Control")) (ascii "must-revalidate") != -1 ||
        Index (resp.Header.Peek (ascii "Cache-Control")) (ascii "proxy-revalidate") != -1) = true := by
      simpa [bne_iff_ne, or_assoc] using h1
    rw [if_pos this, if_pos h1]
  · have : ¬ (Index (resp.Header.Peek (ascii "Cache-Control")) (ascii "no-cache") != -1 ||
        Index (resp.Header.Peek (ascii "Cache-Control")) (ascii "must-revalidate") != -1 ||
        Index (resp.Header.Peek (ascii "Cache-Control")) (ascii "proxy-revalidate") != -1) = true := by
      simpa [bne_iff_ne, or_assoc] using h1
    rw [if_neg this, if_neg h1]
    by_cases h2 : resp.Header.Peek (ascii "Expires") = []
    · simp only [h2, bne_self_eq_false, Bool.false_eq_true, if_false, ne_eq, not_true_eq_false,
        false_and]
      by_cases h3 : getAge (resp.Header.Peek (ascii "Cache-Control")) = -1
      · simp [h3]
      · simp only [bne_iff_ne, ne_eq, h3, not_false_eq_true, if_true]
        by_cases h4 : resp.Header.Peek (ascii "Date") = []
        · simp [h4]
        · simp only [beq_iff_eq, h4, if_false]
          cases env.timeParse RFC1123 (resp.Header.Peek (ascii "Date")) <;> rfl
    · have h2b : (resp.Header.Peek (ascii "Expires") != []) = true := by
        simpa [bne_iff_ne] using h2
      simp only [h2b, if_true, ne_eq, h2, not_false_eq_true, true_and]
      cases env.timeParse TimeFormat (resp.Header.Peek (ascii "Expires")) with
      | none => simp
      | some e =>
        simp only [reduceCtorEq, if_false]
        by_cases h3 : getAge (resp.Header.Peek (ascii "Cache-Control")) = -1
        · simp [h3]
        · simp only [bne_iff_ne, ne_eq, h3, not_false_eq_true, if_true]
          by_cases h4 : resp.Header.Peek (ascii "Date") = []
          · simp [h4]
          · simp only [beq_iff_eq, h4, if_false]
            cases env.timeParse RFC1123 (resp.Header.Peek (ascii "Date")) <;> rfl

/-- Deadline and lifetime of the entry `NewCacheResp` returns, by branch. -/
theorem NewCacheResp_freshness (env : Env) (resp : Response) :
    (NewCacheResp env resp).map (fun d => (d.Vlidity, d.maxAge)) =
      if Index (resp.Header.Peek (ascii "Cache-Control")) (ascii "no-cache") ≠ -1 ∨
          Index (resp.Header.Peek (ascii "Cache-Control")) (ascii "must-revalidate") ≠ -1 ∨
          Index (resp.Header.Peek (ascii "Cache-Control")) (ascii "proxy-revalidate") ≠ -1 then
        none
      else if resp.Header.Peek (ascii "Expires") ≠ [] ∧
          env.timeParse TimeFormat (resp.Header.Peek (ascii "Expires")) = none then
        none
      else if getAge (resp.Header.Peek (ascii "Cache-Control")) ≠ -1 then
        (if resp.Header.Peek (ascii "Date") = [] then some env.now
          else env.timeParse RFC1123 (resp.Header.Peek (ascii "Date"))).map
          (fun t =>
            (timeAdd t (secondsToDuration (getAge (resp.Header.Peek (ascii "Cache-Control")))),
              getAge (resp.Header.Peek (ascii "Cache-Control"))))
      else
        some (timeAdd env.now (secondsToDuration env.cacheTimeout), env.cacheTimeout) := by
  rw [NewCacheResp_eq]
  split
  · rfl
  · split
    · rfl
    · split
      · rw [Option.map_map]
        rfl
      · rfl

theorem find_filter_other (E k : GoString) (hk : k ≠ E) (l : List (GoString × GoString)) :
    (l.filter (fun kv => kv.1 != E)).find? (fun kv => kv.1 == k)
      = l.find? (fun kv => kv.1 == k) := by
  induction l with
  | nil => rfl
  | cons x l ih =>
    by_cases hx : x.1 = E
    · have hEk : (E == k) = false := by
        simp only [beq_eq_false_iff_ne, ne_eq]
        exact fun h => hk h.symm
      simp [List.filter_cons, List.find?_cons, hx, ih, hEk]
    · simp [List.filter_cons, List.find?_cons, hx, ih]

theorem Peek_eq_of_otherLines (r1 r2 : Response) (k : GoString)
    (hk : normalizeHeaderKey k ≠ ascii "Expires")
    (h : otherLines r1 = otherLines r2) : r1.Header.Peek k = r2.Header.Peek k := by
  unfold otherLines at h
  unfold ResponseHeader.Peek
  rw [← find_filter_other (ascii "Expires") (normalizeHeaderKey k) hk r1.Header.h,
    ← find_filter_other (ascii "Expires") (normalizeHeaderKey k) hk r2.Header.h, h]

/-! ## `MD5Uri` -/

theorem MD5Uri_empty : MD5Uri (ascii "") = ascii "d41d8cd98f00b204e9800998ecf8427e" := by
  decide!

theorem MD5Uri_abc : MD5Uri (ascii "abc") = ascii "900150983cd24fb0d6963f7d28e17f72" := by
  decide!

theorem MD5Uri_two_blocks :
    MD5Uri (ascii "12345678901234567890123456789012345678901234567890123456789012345678901234567890")
      = ascii "57edf4a22be3c955ac49da2e2107b67a" := by
  decide!

theorem Sum_length (data : GoString) : (MD5.Sum data).length = 16 := by
  simp [MD5.Sum, MD5.le32]

theorem hexByte_lower (b : Byte) : (hexByte b).all isLowerHex = true := by
  revert b
  decide!

theorem hexByte_value (b : Byte) : hexDecode (hexByte b) = [b.val] := by
  revert b
  decide!

theorem sprintfHex_length (bs : List Byte) : (sprintfHex bs).length = 2 * bs.length := by
  induction bs with
  | nil => rfl
  | cons b bs ih =>
    have : sprintfHex (b :: bs) = hexByte b ++ sprintfHex bs := rfl
    rw [this, List.length_append, ih]
    simp [hexByte]
    omega

theorem sprintfHex_lower (bs : List Byte) : (sprintfHex bs).all isLowerHex = true := by
  induction bs with
  | nil => rfl
  | cons b bs ih =>
    have : sprintfHex (b :: bs) = hexByte b ++ sprintfHex bs := rfl
    rw [this, List.all_append, ih, hexByte_lower]
    rfl

theorem hexDecode_sprintfHex (bs : List Byte) :
    hexDecode (sprintfHex bs) = bs.map Fin.val := by
  induction bs with
  | nil => rfl
  | cons b bs ih =>
    have h1 : sprintfHex (b :: bs)
        = ldigits.getD (b.val / 16) 0 :: ldigits.getD (b.val % 16) 0 :: sprintfHex bs := rfl
    have h2 := hexByte_value b
    simp only [hexByte, hexDecode, List.cons.injEq, and_true] at h2
    rw [h1, hexDecode, ih, h2]
    rfl

/-- C8: for every URI, of any length and any bytes, `MD5Uri` returns a key of
exactly 32 bytes, each a lowercase hexadecimal digit (`0`-`9`, `a`-`f`), and
the 16 digit pairs are the 16 bytes of the MD5 digest of the URI. -/
theorem MD5Uri_is_32_lower_hex_digits_of_digest (uri : GoString) :
    (MD5Uri uri).length = 32 ∧
    (MD5Uri uri).all isLowerHex = true ∧
    (MD5.Sum uri).length = 16 ∧
    hexDecode (MD5Uri uri) = (MD5.Sum uri).map Fin.val := by
  refine ⟨?_, sprintfHex_lower _, Sum_length uri, hexDecode_sprintfHex _⟩
  unfold MD5Uri
  rw [sprintfHex_length, Sum_length]

/-! ## Freshness lifetime and deadline -/

/-- C1: on a response with `Cache-Control: max-age=120` and a `Date` that
parses to one hour after the epoch (no `Expires`, no revalidation directive)
`NewCacheResp` returns an entry whose lifetime is 5448 seconds and whose
deadline is `Date + 5448s`, which is not `Date + 120s`: every digit is added
as its character code. -/
theorem NewCacheResp_max_age_120_deadline :
    (NewCacheResp sampleEnv
        (respWith [("Cache-Control", "max-age=120"),
                   ("Date", "Thu, 01 Jan 1970 01:00:00 GMT")])).map
      (fun c => (c.maxAge, c.Vlidity))
      = some (5448, 3600 * Second + 5448 * Second) ∧
    sampleEnv.timeParse RFC1123 (ascii "Thu, 01 Jan 1970 01:00:00 GMT")
      = some (3600 * Second) ∧
    3600 * Second + 5448 * Second ≠ 3600 * Second + 120 * Second := by
  decide!

/-- C2: on `s-maxage=60, max-age=300` the lifetime `getAge` computes is 588,
not 60: the `s-maxage` directive is the one read, but its digits `6` and `0`
are accumulated as the character codes 54 and 48. -/
theorem getAge_s_maxage_60_max_age_300 :
    getAge (ascii "s-maxage=60, max-age=300") = 588 ∧
    getAge.f (ascii "s-maxage=60, max-age=300") (ascii "s-maxage") = 54 * 10 + 48 := by
  decide

/-- C6: on a response with no `Cache-Control` and `Expires` one hour after the
epoch, evaluated at 00:10:00 with `server.cache_timeout` 60, the entry
`NewCacheResp` returns has lifetime 60 (the configured default) and deadline
`now + 60s`; the parsed `Expires`, 3000 seconds ahead, is overwritten. -/
theorem NewCacheResp_expires_overwritten_by_default :
    (NewCacheResp sampleEnv (respWith [("Expires", "Thu, 01 Jan 1970 01:00:00 GMT")])).map
      (fun c => (c.maxAge, c.Vlidity))
      = some (sampleEnv.cacheTimeout, sampleEnv.now + 60 * Second) ∧
    sampleEnv.timeParse TimeFormat (ascii "Thu, 01 Jan 1970 01:00:00 GMT")
      = some (sampleEnv.now + 3000 * Second) ∧
    sampleEnv.cacheTimeout = 60 := by
  decide!

/-! ## Revalidation directives -/

/-- C3, as the code has it: a response whose `Cache-Control` contains
`no-cache`, `must-revalidate` or `proxy-revalidate` gets no entry at all from
`NewCacheResp`. -/
theorem NewCacheResp_revalidation_directive_gives_nil (env : Env) (resp : Response)
    (h : hasRevalidationDirective (resp.Header.Peek (ascii "Cache-Control"))) :
    NewCacheResp env resp = none := by
  obtain ⟨a, d, b, hcc, hd⟩ := h
  have hidx : Index (resp.Header.Peek (ascii "Cache-Control")) d ≠ -1 :=
    Index_ne_neg_one_of_occurs _ d a b hcc
  rw [NewCacheResp_eq, if_pos]
  rcases hd with hd | hd | hd
  · exact Or.inl (hd ▸ hidx)
  · exact Or.inr (Or.inl (hd ▸ hidx))
  · exact Or.inr (Or.inr (hd ▸ hidx))

/-- C3 witness: `Cache-Control: public, must-revalidate, max-age=60`. -/
theorem NewCacheResp_revalidation_directive_gives_nil_witness :
    hasRevalidationDirective
        ((respWith [("Cache-Control", "public, must-revalidate, max-age=60")]).Header.Peek
          (ascii "Cache-Control")) ∧
    NewCacheResp sampleEnv (respWith [("Cache-Control", "public, must-revalidate, max-age=60")])
      = none :=
  have h : hasRevalidationDirective
      ((respWith [("Cache-Control", "public, must-revalidate, max-age=60")]).Header.Peek
        (ascii "Cache-Control")) :=
    ⟨ascii "public, ", ascii "must-revalidate", ascii ", max-age=60", by decide,
      Or.inr (Or.inl rfl)⟩
  ⟨h, NewCacheResp_revalidation_directive_gives_nil sampleEnv _ h⟩

/-- C3 counterexample: for each of `no-cache`, `must-revalidate` and
`proxy-revalidate` as the whole `Cache-Control` value, `NewCacheResp` returns
`nil`, so no entry with a true flag is returned. -/
theorem NewCacheResp_no_cache_returns_nil :
    NewCacheResp sampleEnv (respWith [("Cache-Control", "no-cache")]) = none ∧
    NewCacheResp sampleEnv (respWith [("Cache-Control", "must-revalidate")]) = none ∧
    NewCacheResp sampleEnv (respWith [("Cache-Control", "proxy-revalidate")]) = none := by
  decide!

/-! ## `Verify` -/

/-- C4, as the code has it: `Verify` returns true without building or sending
a request exactly when the flag `Mustverified` is true and the current time
is before the deadline `Vlidity`. -/
theorem Verify_fresh_directly_iff (w : World) (c : HttpCache) :
    Verify w c = ⟨true, []⟩ ↔ (c.Mustverified = true ∧ w.now < c.Vlidity) := by
  unfold Verify
  by_cases h : (c.Mustverified == true && timeAfter c.Vlidity w.now) = true
  · rw [if_pos h]
    simp only [Bool.and_eq_true, beq_iff_eq, timeAfter, decide_eq_true_eq] at h
    simp [h]
  · rw [if_neg h]
    simp only [Bool.and_eq_true, beq_iff_eq, timeAfter, decide_eq_true_eq] at h
    constructor
    · intro hv
      exfalso
      dsimp only at hv
      split at hv
      · simp at hv
      · cases hr : w.roundTrip (conditionalRequest c) with
        | none => simp [hr] at hv
        | some status =>
          rw [hr] at hv
          dsimp only at hv
          split at hv <;> simp at hv
    · intro hc
      exact absurd hc h

/-- C4 counterexample: at 00:10:00 an entry whose flag is true and whose
deadline is 01:00:00 is answered fresh with no outside call, and an entry
with the same deadline whose flag is false is not. -/
theorem Verify_fresh_with_flag_true :
    Verify sampleWorld (sampleEntry true (3600 * Second)) = ⟨true, []⟩ ∧
    sampleWorld.now < (sampleEntry true (3600 * Second)).Vlidity ∧
    Verify sampleWorld (sampleEntry false (3600 * Second)) ≠ ⟨true, []⟩ ∧
    sampleWorld.now < (sampleEntry false (3600 * Second)).Vlidity := by
  decide!

/-- C5: an entry with `ETag: abc` whose deadline (00:01:00) has passed at
00:10:00 is revalidated with a `GET` carrying `If-None-Match: abc`; the
origin answers `304 Not Modified`, and `Verify` returns false. -/
theorem Verify_false_on_304 :
    Verify sampleWorld (sampleEntry true (60 * Second))
      = ⟨false,
          [Effect.newRequest (ascii "GET") sampleURI,
           Effect.roundTrip (conditionalRequest (sampleEntry true (60 * Second)))]⟩ ∧
    conditionalRequest (sampleEntry true (60 * Second))
      = ⟨ascii "GET", sampleURI, [(ascii "If-None-Match", ascii "abc")]⟩ ∧
    sampleWorld.roundTrip ⟨ascii "GET", sampleURI, [(ascii "If-None-Match", ascii "abc")]⟩
      = some StatusNotModified := by
  decide!

/-- Whatever the origin answers, `Verify` returns true only on the direct
path. -/
theorem Verify_answer (w : World) (c : HttpCache) :
    (Verify w c).answer = (c.Mustverified == true && timeAfter c.Vlidity w.now) := by
  unfold Verify
  by_cases h : (c.Mustverified == true && timeAfter c.Vlidity w.now) = true
  · rw [if_pos h, h]
  · rw [if_neg h]
    simp only [Bool.not_eq_true] at h
    rw [h]
    dsimp only
    split
    · rfl
    · cases hr : w.roundTrip (conditionalRequest c) with
      | none => rfl
      | some status =>
        dsimp only
        split <;> rfl

/-! ## `ConnCachePool.Get` -/

/-- The unexported `get` hands back whatever the decoder left in its target,
whether or not the decoder reported an error. -/
theorem ConnCachePool.get_bulk (p : ConnCachePool) (key b : GoString)
    (hb : p.doGet key = Reply.bulk b) (hne : b ≠ []) :
    p.get key = (p.unmarshal b (some HttpCache.zero)).1 := by
  have hlen : (b.length == 0) = false := by
    cases b with
    | nil => exact absurd rfl hne
    | cons x t => rfl
  simp [ConnCachePool.get, hb, redisBytes, hlen]

/-- A store error on `GET` makes `Get` return `nil`. -/
theorem ConnCachePool.Get_error (p : ConnCachePool) (uri : GoString)
    (h : p.doGet (MD5Uri uri) = Reply.error) : p.Get uri = none := by
  simp [ConnCachePool.Get, ConnCachePool.get, h, redisBytes]

/-- C7: with the blob `{` stored under the key of the sample URI, a blob the
decoder rejects with an error, `Get` returns a non-nil entry, the zero-valued
`HttpCache` allocated before decoding. -/
theorem Get_corrupt_blob_returns_zero_entry :
    corruptPool.Get sampleURI = some HttpCache.zero ∧
    corruptPool.doGet (MD5Uri sampleURI) = Reply.bulk (ascii "\x7b") ∧
    (corruptPool.unmarshal (ascii "\x7b") (some HttpCache.zero)).2 = true := by
  decide!

/-! ## Malformed directive values -/

/-- C10, as the code has it: when `NewCacheResp` returns an entry, its
deadline is the reference time plus `maxAge * 10^9` nanoseconds wrapped to
`int64`, hence exactly `maxAge` seconds after the reference time whenever
`maxAge * 10^9` is an `int64`; the reference time is the parsed `Date` when
`getAge` returned a value other than -1 and `Date` is non-empty, and the
current time otherwise. Whether or not the product fits, a response with the
same header lines apart from `Expires`, whose `Expires` is empty or parses,
gets the same deadline and lifetime. -/
theorem NewCacheResp_deadline_is_reference_plus_lifetime
    (env : Env) (resp : Response) (c : HttpCache)
    (h : NewCacheResp env resp = some c) :
    (∃ ref, referenceTime env resp = some ref ∧
      c.Vlidity = ref + wrapInt64 (c.maxAge * Second) ∧
      (-9223372036854775808 ≤ c.maxAge * Second ∧
          c.maxAge * Second ≤ 9223372036854775807 →
        c.Vlidity = ref + c.maxAge * Second)) ∧
    ∀ resp2 : Response,
      otherLines resp2 = otherLines resp →
      (resp2.Header.Peek (ascii "Expires") = [] ∨
        (env.timeParse TimeFormat (resp2.Header.Peek (ascii "Expires"))).isSome = true) →
      (NewCacheResp env resp2).map (fun d => (d.Vlidity, d.maxAge))
        = some (c.Vlidity, c.maxAge) := by
  have hproj : (NewCacheResp env resp).map (fun d => (d.Vlidity, d.maxAge))
      = some (c.Vlidity, c.maxAge) := by rw [h]; rfl
  rw [NewCacheResp_freshness env resp] at hproj
  constructor
  · unfold referenceTime
    split at hproj
    · exact absurd hproj (by simp)
    · split at hproj
      · exact absurd hproj (by simp)
      · split at hproj
        · rename_i hage
          by_cases hd : resp.Header.Peek (ascii "Date") = []
          · rw [if_pos hd] at hproj
            simp only [Option.map_some', Option.some.injEq, Prod.mk.injEq] at hproj
            obtain ⟨hv, hm⟩ := hproj
            have hV : c.Vlidity = env.now + wrapInt64 (c.maxAge * Second) := by
              rw [← hv, hm, timeAdd, secondsToDuration]
            refine ⟨env.now, by simp [hd], hV, ?_⟩
            intro hfit
            rw [hV, wrapInt64_of_fits _ hfit.1 hfit.2]
          · rw [if_neg hd] at hproj
            cases hp : env.timeParse RFC1123 (resp.Header.Peek (ascii "Date")) with
            | none => rw [hp] at hproj; exact absurd hproj (by simp)
            | some t =>
              rw [hp] at hproj
              simp only [Option.map_some', Option.some.injEq, Prod.mk.injEq] at hproj
              obtain ⟨hv, hm⟩ := hproj
              have hV : c.Vlidity = t + wrapInt64 (c.maxAge * Second) := by
                rw [← hv, hm, timeAdd, secondsToDuration]
              refine ⟨t, by simp [hd, hage], hV, ?_⟩
              intro hfit
              rw [hV, wrapInt64_of_fits _ hfit.1 hfit.2]
        · rename_i hage
          simp only [Option.some.injEq, Prod.mk.injEq] at hproj
          obtain ⟨hv, hm⟩ := hproj
          have hV : c.Vlidity = env.now + wrapInt64 (c.maxAge * Second) := by
            rw [← hv, hm, timeAdd, secondsToDuration]
          refine ⟨env.now, by simp [hage], hV, ?_⟩
          intro hfit
          rw [hV, wrapInt64_of_fits _ hfit.1 hfit.2]
  · intro resp2 hsame hexp
    have hcc : resp2.Header.Peek (ascii "Cache-Control")
        = resp.Header.Peek (ascii "Cache-Control") :=
      Peek_eq_of_otherLines resp2 resp _ (by decide) hsame
    have hdate : resp2.Header.Peek (ascii "Date") = resp.Header.Peek (ascii "Date") :=
      Peek_eq_of_otherLines resp2 resp _ (by decide) hsame
    have hexp2 : ¬ (resp2.Header.Peek (ascii "Expires") ≠ [] ∧
        env.timeParse TimeFormat (resp2.Header.Peek (ascii "Expires")) = none) := by
      rintro ⟨hne, hnone⟩
      rcases hexp with he | he
      · exact hne he
      · rw [hnone] at he
        exact absurd he (by simp)
    rw [NewCacheResp_freshness env resp2, hcc, hdate, if_neg hexp2]
    split at hproj
    · exact absurd hproj (by simp)
    · rename_i hguard
      rw [if_neg hguard]
      split at hproj
      · exact absurd hproj (by simp)
      · exact hproj

/-- C10 witness: `max-age=60` dated 01:00:00 with `Expires` at the epoch:
the product fits, the deadline is `Date` plus the stored lifetime, and the
same response with `Expires` at 01:00:00 gets the same deadline and
lifetime; so does the eleven-digit `max-age` response, whose product does
not fit, when an `Expires` line is added. -/
theorem NewCacheResp_deadline_is_reference_plus_lifetime_witness :
    NewCacheResp sampleEnv (datedResponse "Thu, 01 Jan 1970 00:00:00 GMT")
      = some { entryBase (datedResponse "Thu, 01 Jan 1970 00:00:00 GMT") with
          Mustverified := true, Vlidity := 4188 * Second, maxAge := 588 } ∧
    (-9223372036854775808 ≤ (588 : Int) * Second ∧
      (588 : Int) * Second ≤ 9223372036854775807) ∧
    (∃ ref, referenceTime sampleEnv (datedResponse "Thu, 01 Jan 1970 00:00:00 GMT") = some ref ∧
      (4188 * Second : Int) = ref + wrapInt64 (588 * Second) ∧
      (-9223372036854775808 ≤ (588 : Int) * Second ∧
          (588 : Int) * Second ≤ 9223372036854775807 →
        (4188 * Second : Int) = ref + 588 * Second)) ∧
    (NewCacheResp sampleEnv (datedResponse "Thu, 01 Jan 1970 01:00:00 GMT")).map
      (fun d => (d.Vlidity, d.maxAge)) = some (4188 * Second, 588) ∧
    (NewCacheResp sampleEnv longLivedExpiring).map (fun d => (d.Vlidity, d.maxAge))
      = some (sampleEnv.now + 6144034820875245056, 633333333327) :=
  have h : NewCacheResp sampleEnv (datedResponse "Thu, 01 Jan 1970 00:00:00 GMT")
      = some { entryBase (datedResponse "Thu, 01 Jan 1970 00:00:00 GMT") with
          Mustverified := true, Vlidity := 4188 * Second, maxAge := 588 } := by decide!
  have h2 : NewCacheResp sampleEnv longLivedResponse
      = some { entryBase longLivedResponse with
          Mustverified := true, Vlidity := sampleEnv.now + 6144034820875245056,
          maxAge := 633333333327 } := by decide!
  ⟨h, by decide,
    (NewCacheResp_deadline_is_reference_plus_lifetime sampleEnv _ _ h).1,
    (NewCacheResp_deadline_is_reference_plus_lifetime sampleEnv _ _ h).2
      (datedResponse "Thu, 01 Jan 1970 01:00:00 GMT") (by decide!) (Or.inr (by decide!)),
    (NewCacheResp_deadline_is_reference_plus_lifetime sampleEnv _ _ h2).2
      longLivedExpiring (by decide!) (Or.inr (by decide!))⟩

/-- C10 counterexample: on `max-age=99999999999` without `Date`, evaluated at
00:10:00, the stored lifetime is 633333333327 seconds while the deadline is
only 6144034820.875245056 seconds after the reference time (the current
time): the product `maxAge * 10^9` does not fit an `int64` and wraps. -/
theorem NewCacheResp_deadline_wraps :
    (NewCacheResp sampleEnv longLivedResponse).map (fun c => (c.maxAge, c.Vlidity))
      = some (633333333327, sampleEnv.now + 6144034820875245056) ∧
    referenceTime sampleEnv longLivedResponse = some sampleEnv.now ∧
    sampleEnv.now + 6144034820875245056 ≠ sampleEnv.now + 633333333327 * Second := by
  decide!

end Cache
